import Mathlib

/-!
Verification development for the hashR harvesting engine (google/hashr).

The definitions below are a shallow embedding of the Go source:
  * `Hashr.Cache.*`   embeds `cache/cache.go` (`readJSON`, `Check`, `Load`, `Save`);
  * `Hashr.Core.*`    embeds `core/hashr.go` (`newSources`, `contains`,
    `cleanupLocalStorage`, `saveSamples`, and the status/trace structure of
    `processingWorker`);
  * `Hashr.Conc.*`    embeds the interleaving of two `processingWorker`
    goroutines around the shared `sync.Map` cache and the `h.mu` mutex.

Side effects (file system, storage writes) are made explicit: file-system
outcomes are inputs to the embedded functions, and effects are returned as
data.  Machine-level details that the claims do not touch (protobuf byte
layout, SHA-256 itself) are abstracted as opaque strings/byte lists.
-/

namespace Hashr

/-- Sample mirrors `common.Sample`: one extracted file occurrence with its
content digest, the list of paths at which it occurs, and the upload flag. -/
structure Sample where
  sha256 : String
  paths : List String
  upload : Bool := false
  deriving Repr, DecidableEq

/-- Extraction mirrors `common.Extraction`: the result of preprocessing plus
file-level extraction of one source. -/
structure Extraction where
  sourceID : String
  repoName : String
  sourceSHA256 : String
  baseDir : String
  path : String
  deriving Repr, DecidableEq

/-- CacheEntry mirrors the proto message `cpb.CacheEntry`: one occurrence of a
file digest, recording the source id, the source's full SHA-256 and the
(repeated) path field. -/
structure CacheEntry where
  sourceId : String
  sourceHash : String
  path : List String := []
  deriving Repr, DecidableEq

/-- Entries mirrors the proto message `cpb.Entries`: the value stored in the
cache for one file digest. -/
structure Entries where
  lastUpdated : Nat
  entries : List CacheEntry
  deriving Repr, DecidableEq

/-- Cache models the in-memory repository cache (the `sync.Map` keyed by file
digest) as an association list from digest to `Entries`. -/
abbrev Cache := List (String × Entries)

namespace Cache

/-- cacheFind models `sync.Map.Load`: look a digest up in the cache. -/
def cacheFind : Cache → String → Option Entries
  | [], _ => none
  | (k, v) :: rest, d => if k = d then some v else cacheFind rest d

/-- cacheAppend models the mutation performed on the value already stored for
digest `d` (cache.go lines 153-155): append the new occurrence and refresh the
`LastUpdated` timestamp. -/
def cacheAppend : Cache → String → CacheEntry → Nat → Cache
  | [], _, _, _ => []
  | (k, v) :: rest, d, e, now =>
      if k = d then
        (k, { lastUpdated := now, entries := v.entries ++ [e] }) :: rest
      else
        (k, v) :: cacheAppend rest d e now

/-- cacheStore models `sync.Map.Store` on a digest that is not yet present:
the new binding is added to the map. -/
def cacheStore (c : Cache) (d : String) (v : Entries) : Cache :=
  c ++ [(d, v)]

/-- joinPath models `filepath.Join` at the granularity the claims need:
the manifest-relative path is attached under the directory. -/
def joinPath (dir p : String) : String := dir ++ "/" ++ p

/-- resolveSamples models the loop at the end of `readJSON` (cache.go lines
48-52): every path of every parsed sample is joined with `extraction.Path`.
(In Go the loop mutates the shared backing array of each `Paths` slice, so
the resolution is visible to the caller.) -/
def resolveSamples (extraction : Extraction) (samples : List Sample) : List Sample :=
  samples.map (fun s => { s with paths := s.paths.map (joinPath extraction.path) })

/-- readJSON models `readJSON` (cache.go lines 34-55): the manifest-read and
JSON-parse outcome is the input `manifest` (`none` = read or unmarshal error);
on success the parsed samples are returned with paths resolved against
`extraction.Path`. -/
def readJSON (extraction : Extraction) (manifest : Option (List Sample)) :
    Except String (List Sample) :=
  match manifest with
  | none => .error "error while reading hashes.json file"
  | some samples => .ok (resolveSamples extraction samples)

/-- checkLoop models the `for _, sample := range samples` loop of `Check`
(cache.go lines 142-166): for each sample, build the new occurrence (note the
Go code sets only `SourceId` and `SourceHash` on it); if the digest is in the
cache, append the occurrence and return the sample with `upload = false`,
otherwise store a fresh entry and return the sample with `upload = true`.
`now` stands for `timestamppb.Now()`. -/
def checkLoop (extraction : Extraction) (now : Nat) :
    List Sample → Cache → List Sample × Cache
  | [], c => ([], c)
  | s :: rest, c =>
      let newCacheEntry : CacheEntry :=
        { sourceId := extraction.sourceID, sourceHash := extraction.sourceSHA256 }
      match cacheFind c s.sha256 with
      | some _ =>
          let c' := cacheAppend c s.sha256 newCacheEntry now
          let out := checkLoop extraction now rest c'
          ({ sha256 := s.sha256, paths := s.paths, upload := false } :: out.1, out.2)
      | none =>
          let c' := cacheStore c s.sha256 { lastUpdated := now, entries := [newCacheEntry] }
          let out := checkLoop extraction now rest c'
          ({ sha256 := s.sha256, paths := s.paths, upload := true } :: out.1, out.2)

/-- Check models `Check` (cache.go lines 135-169): read and resolve the
manifest, then run the cache-diff loop.  The returned pair is the sample list
handed back to the worker together with the mutated cache. -/
def Check (extraction : Extraction) (manifest : Option (List Sample)) (now : Nat)
    (c : Cache) : Except String (List Sample × Cache) :=
  match readJSON extraction manifest with
  | .error e => .error e
  | .ok samples => .ok (checkLoop extraction now samples c)

/-- LoadEnv packages the file-system outcomes that `Load` (cache.go lines
100-132) observes: whether `os.Stat` finds the cache file, the
`ioutil.ReadFile` outcome (`none` = read error), the `proto.Unmarshal`
outcome as a function of the bytes read (`none` = unmarshal error), and
whether `os.Remove` succeeds. -/
structure LoadEnv where
  fileExistsAtPath : Bool
  readResult : Option (List Nat)
  parseResult : List Nat → Option Cache
  removeOk : Bool

/-- LoadEffects records the file-system effect of a `Load` call: whether the
cache file was removed.  (`Load` contains no file-creation call, so there is
no creation effect to record.) -/
structure LoadEffects where
  removedFile : Bool
  deriving Repr, DecidableEq

/-- Load models `Load` (cache.go lines 100-132).  If the file does not exist,
an empty in-memory cache is returned.  If reading or unmarshalling fails, the
file is removed and an empty cache returned; if that removal itself fails,
the removal error is returned.  Otherwise the parsed samples populate the
cache map. -/
def Load (env : LoadEnv) : Except String (Cache × LoadEffects) :=
  if env.fileExistsAtPath = false then
    .ok ([], { removedFile := false })
  else
    match env.readResult with
    | none =>
        if env.removeOk then .ok ([], { removedFile := true })
        else .error "error while trying to delete the repo cache file"
    | some data =>
        match env.parseResult data with
        | none =>
            if env.removeOk then .ok ([], { removedFile := true })
            else .error "error while trying to delete the repo cache file"
        | some c => .ok (c, { removedFile := false })

/-- saveFileStates models the contents of the cache file at the three crash
points of `Save` (cache.go lines 58-96): before `os.Create`, after
`os.Create` (which truncates the file at `cachePath` in place), and after
`cacheFile.Write(data)` completes.  `old` is the previous file content
(`none` = no file), `data` the marshalled bytes of the cache. -/
def saveFileStates (old : Option (List Nat)) (data : List Nat) :
    List (Option (List Nat)) :=
  [old, some [], some data]

/-- saveAtomic states the atomicity property claimed for `Save`: at every
crash point the file holds either the previous contents or the complete new
contents. -/
def saveAtomic (old : Option (List Nat)) (data : List Nat) : Prop :=
  ∀ st ∈ saveFileStates old data, st = old ∨ st = some data

end Cache

namespace Core

open Cache

/-- Status mirrors the `status` string constants of core/hashr.go lines
128-136. -/
inductive Status
  | discovered
  | preprocessed
  | processed
  | cached
  | exported
  | failed
  deriving Repr, DecidableEq

/-- statusRank orders the non-failed pipeline states as they appear in the
per-source state machine. -/
def statusRank : Status → Nat
  | .discovered => 0
  | .preprocessed => 1
  | .processed => 2
  | .cached => 3
  | .exported => 4
  | .failed => 5

/-- statusForward holds of a pair of consecutively written statuses when the
second is `failed` or strictly later in the pipeline order. -/
def statusForward (a b : Status) : Bool :=
  b == .failed || statusRank a < statusRank b

/-- chainOk checks a binary relation along consecutive elements of a list. -/
def chainOk (r : Status → Status → Bool) : List Status → Bool
  | [] => true
  | [_] => true
  | a :: b :: rest => r a b && chainOk r (b :: rest)

/-- isTerminal marks the two terminal states of the per-source state
machine. -/
def isTerminal : Status → Bool
  | .exported => true
  | .failed => true
  | _ => false

/-- eqFold models `strings.EqualFold` at the ASCII level used by the engine
(quick hashes and the `reprocess` sentinel are ASCII): both strings are
lower-cased character-wise and compared. -/
def eqFold (a b : String) : Bool :=
  a.data.map Char.toLower == b.data.map Char.toLower

/-- contains mirrors `contains` (core/hashr.go lines 178-185): membership in
the slice up to `strings.EqualFold`. -/
def contains (slice : List String) (s : String) : Bool :=
  slice.any (fun element => eqFold s element)

/-- reprocessSentinel is the `reprocess` status constant (core/hashr.go line
135). -/
def reprocessSentinel : String := "reprocess"

/-- DiscoveredSource models a source as seen by `newSources`: its id and the
outcome of `QuickSHA256Hash` (`none` = quick-hashing error, the source is
skipped). -/
structure DiscoveredSource where
  id : String
  quickHash : Option String
  deriving Repr, DecidableEq

/-- lookupJob models the Go map lookup `processedSources[qHash]` on the
association list returned by `Storage.FetchJobs`. -/
def lookupJob : List (String × String) → String → Option String
  | [], _ => none
  | (k, v) :: rest, q => if k = q then some v else lookupJob rest q

/-- isNewSource mirrors the dispatch condition of `newSources` (core/hashr.go
line 169): the quick hash is absent from the job store, or it matches the
caller-supplied reprocess list, or the stored status equals `reprocess`
(all comparisons via `strings.EqualFold`; an absent key yields the zero
value `""` for the status). -/
def isNewSource (jobs : List (String × String)) (reprocessList : List String)
    (qh : String) : Bool :=
  let st := lookupJob jobs qh
  !st.isSome || contains reprocessList qh || eqFold (st.getD "") reprocessSentinel

/-- newSources mirrors the filtering loop of `newSources` (core/hashr.go
lines 159-172): sources whose quick hash errors are skipped; the rest are
kept exactly when `isNewSource` holds. -/
def newSources (jobs : List (String × String)) (reprocessList : List String) :
    List DiscoveredSource → List DiscoveredSource
  | [] => []
  | s :: rest =>
      match s.quickHash with
      | none => newSources jobs reprocessList rest
      | some qh =>
          if isNewSource jobs reprocessList qh then
            s :: newSources jobs reprocessList rest
          else
            newSources jobs reprocessList rest

/-- tmpRoot is the literal temp-root prefix checked by `cleanupLocalStorage`
(core/hashr.go line 232). -/
def tmpRoot : String := "/tmp/hashr"

/-- hasPrefixGo models `strings.HasPrefix s pre` character-wise. -/
def hasPrefixGo (s pre : String) : Bool := pre.data.isPrefixOf s.data

/-- cleanupLocalStorage models `cleanupLocalStorage` (core/hashr.go lines
224-240) at the level of its observable file-system effect: the recursive
delete command is run exactly when the path has the `/tmp/hashr` prefix.
The returned Bool is whether deletion was attempted. -/
def cleanupLocalStorage (path : String) : Bool := hasPrefixGo path tmpRoot

/-- WorkerOutcome fixes, for one source handled by `processingWorker`, the
success/failure of each fallible stage: `QuickSHA256Hash` (hashr.go line
315), `Preprocess` (line 197), `sha256sum` of the local path (line 208),
`Processor.ImageExport` (line 214), the `cache.Check` manifest read (line
341), and the export / save-to-disk call (lines 370/384). -/
structure WorkerOutcome where
  quickHashOk : Bool
  preprocessOk : Bool
  hashOk : Bool
  extractOk : Bool
  manifestOk : Bool
  exportOk : Bool
  deriving Repr, DecidableEq, Fintype

/-- WorkerEvent is one observable action of `processingWorker` for a single
source: a job-store write carrying the record's status (`Storage.UpdateJobs`),
the `cache.Check` call, taking/releasing `h.mu`, the export (or save-to-disk)
call, and the `cleanupLocalStorage` call with its argument. -/
inductive WorkerEvent
  | storeWrite (s : Status)
  | cacheCheckCall
  | muLock
  | muUnlock
  | exportCall
  | cleanupCall (dir : String)
  deriving Repr, DecidableEq

/-- processingWorkerEvents is the straight-line event trace of the
`processingWorker` body (core/hashr.go lines 314-405) for one source, as a
function of the stage outcomes.  `baseDir` is `extraction.BaseDir` as set
after a successful preprocess (line 203); before that point the extraction is
the zero value, so `handleError` cleans up the empty path.  `handleError`
(lines 298-310) writes the `failed` record and then calls
`cleanupLocalStorage`. -/
def processingWorkerEvents (o : WorkerOutcome) (baseDir : String) : List WorkerEvent :=
  if !o.quickHashOk then []
  else
    WorkerEvent.storeWrite .discovered ::
    (if !o.preprocessOk then
      [WorkerEvent.storeWrite .failed, WorkerEvent.cleanupCall ""]
    else if !o.hashOk then
      [WorkerEvent.storeWrite .failed, WorkerEvent.cleanupCall baseDir]
    else if !o.extractOk then
      [WorkerEvent.storeWrite .failed, WorkerEvent.cleanupCall baseDir]
    else
      WorkerEvent.storeWrite .processed ::
      WorkerEvent.cacheCheckCall ::
      (if !o.manifestOk then
        [WorkerEvent.storeWrite .failed, WorkerEvent.cleanupCall baseDir]
      else
        WorkerEvent.storeWrite .cached ::
        WorkerEvent.muLock ::
        WorkerEvent.exportCall ::
        (if !o.exportOk then
          [WorkerEvent.storeWrite .failed, WorkerEvent.cleanupCall baseDir,
           WorkerEvent.muUnlock]
        else
          [WorkerEvent.storeWrite .exported, WorkerEvent.cleanupCall baseDir,
           WorkerEvent.muUnlock])))

/-- statusOf projects a status write out of a worker event. -/
def statusOf : WorkerEvent → Option Status
  | .storeWrite s => some s
  | _ => none

/-- statusWrites is the sequence of status values written to the job store
for one source, in program order. -/
def statusWrites (o : WorkerOutcome) (baseDir : String) : List Status :=
  (processingWorkerEvents o baseDir).filterMap statusOf

/-- dirOf projects a cleanup argument out of a worker event. -/
def dirOf : WorkerEvent → Option String
  | .cleanupCall d => some d
  | _ => none

/-- cleanupDirs is the sequence of paths handed to `cleanupLocalStorage` for
one source, in program order. -/
def cleanupDirs (o : WorkerOutcome) (baseDir : String) : List String :=
  (processingWorkerEvents o baseDir).filterMap dirOf

/-- firstValidPath mirrors the loop of `saveSamples` (core/hashr.go lines
430-435): the first path whose `os.Stat` succeeds is picked; if none does,
`samplePath` keeps its zero value `""`. -/
def firstValidPath (statOk : String → Bool) : List String → String
  | [] => ""
  | p :: rest => if statOk p then p else firstValidPath statOk rest

/-- basenameGo models `filepath.Base` on the slash-separated paths the engine
builds (none of which end in a separator): the final path component. -/
def basenameAux : List Char → List Char → List Char
  | [], acc => acc.reverse
  | c :: rest, acc =>
      if c = '/' then basenameAux rest [] else basenameAux rest (c :: acc)

/-- basenameGo is the String wrapper of `basenameAux`. -/
def basenameGo (p : String) : String := ⟨basenameAux p.data []⟩

/-- CopyOp records one file copy performed by `saveSamples`
(`ioutil.ReadFile` then `ioutil.WriteFile`). -/
structure CopyOp where
  src : String
  dest : String
  deriving Repr, DecidableEq

/-- SaveSamplesOut is the observable result of a successful `saveSamples`
call: the copies performed, the `samplesOut` list marshalled into the
manifest, and the path the manifest is written to. -/
structure SaveSamplesOut where
  copies : List CopyOp
  manifest : List Sample
  manifestPath : String
  deriving Repr, DecidableEq

/-- saveSamplesLoop mirrors the `for _, sample := range samples` loop of
`saveSamples` (core/hashr.go lines 420-451).  For a non-upload sample only
`{Sha256, Upload: false}` is appended to `samplesOut` (no paths).  For an
upload sample, the first valid path is read (an unreadable or empty
`samplePath` makes the call fail, as `ioutil.ReadFile` does), the bytes are
written to `destDir/<sha256>/<basename>`, and the manifest entry carries that
destination as its only path. -/
def saveSamplesLoop (destDir : String) (statOk readOk : String → Bool) :
    List Sample → Except String (List CopyOp × List Sample)
  | [] => .ok ([], [])
  | sample :: rest =>
      if !sample.upload then
        match saveSamplesLoop destDir statOk readOk rest with
        | .error e => .error e
        | .ok (copies, manifest) =>
            .ok (copies, { sha256 := sample.sha256, paths := [], upload := false } :: manifest)
      else
        let samplePath := firstValidPath statOk sample.paths
        if !readOk samplePath then .error "read error"
        else
          let destFile := joinPath (joinPath destDir sample.sha256) (basenameGo samplePath)
          match saveSamplesLoop destDir statOk readOk rest with
          | .error e => .error e
          | .ok (copies, manifest) =>
              .ok ({ src := samplePath, dest := destFile } :: copies,
                   { sha256 := sample.sha256, paths := [destFile], upload := true } :: manifest)

/-- saveSamples models `saveSamples` (core/hashr.go lines 410-464).
Directory creation (`os.MkdirAll`, `os.Mkdir`) is modelled as succeeding;
`statOk`/`readOk` give the `os.Stat` and `ioutil.ReadFile` outcomes per
path.  On success the `samples.json` manifest is written into the per-source
destination directory. -/
def saveSamples (exportPath sourceImporter sourceID sourceHash : String)
    (statOk readOk : String → Bool) (samples : List Sample) :
    Except String SaveSamplesOut :=
  let subDir := sourceImporter ++ "___" ++ sourceID ++ "___" ++ sourceHash
  let destDir := joinPath exportPath subDir
  match saveSamplesLoop destDir statOk readOk samples with
  | .error e => .error e
  | .ok (copies, manifest) =>
      .ok { copies := copies, manifest := manifest,
            manifestPath := joinPath destDir "samples.json" }

end Core

namespace Conc

open Cache

/-- WAct is one atomic action of the worker region around the shared cache,
for a source whose extraction manifest holds a single digest.  `sync.Map`
makes individual `Load`/`Store` calls atomic but not their combination, so
`cache.Check`'s per-sample body splits into the `Load` (cache.go line 152)
and the branch that appends or stores and sets the upload flag (cache.go
lines 153-163).  `lock`/`unlock` are `h.mu.Lock()` (hashr.go line 354) and
`h.mu.Unlock()` (line 403); `exportAct` is the export / save-to-disk call
made while the mutex is held (lines 367-390). -/
inductive WAct
  | load
  | commit
  | lock
  | exportAct
  | unlock
  deriving Repr, DecidableEq

/-- workerProgram is the order in which `processingWorker` performs those
actions for one source (core/hashr.go lines 339-403): the `cache.Check`
actions come before `h.mu.Lock()`. -/
def workerProgram : List WAct := [.load, .commit, .lock, .exportAct, .unlock]

/-- WorkerRT is the run-time state of one worker: remaining actions, the
hit/miss answer of its `sync.Map` Load, and the upload flags of the samples
it has produced. -/
structure WorkerRT where
  prog : List WAct
  hit : Bool
  emitted : List Bool
  deriving Repr, DecidableEq

/-- SysState is the shared state of two workers of one repository: the shared
cache, which worker (if any) holds `h.mu`, and both workers. -/
structure SysState where
  cache : Cache
  lockBy : Option (Fin 2)
  w0 : WorkerRT
  w1 : WorkerRT
  deriving Repr, DecidableEq

/-- SysCfg fixes the run: the digest both sources contain and the two
extractions (one per worker). -/
structure SysCfg where
  digest : String
  ex0 : Extraction
  ex1 : Extraction
  now : Nat
  deriving Repr, DecidableEq

/-- entryFor is the occurrence `cache.Check` builds for an extraction
(cache.go lines 143-146). -/
def entryFor (e : Extraction) : CacheEntry :=
  { sourceId := e.sourceID, sourceHash := e.sourceSHA256 }

/-- wactStep executes one enabled action of the chosen worker against the
shared state; a worker whose next action is `lock` while the other holds the
mutex blocks (the state is unchanged).  `commit` follows cache.go lines
152-163: on a hit the occurrence is appended and the sample emitted with
`upload = false`; on a miss a fresh entry is stored and the sample emitted
with `upload = true`. -/
def wactStep (cfg : SysCfg) (e : Extraction) (i : Fin 2) (s : SysState)
    (ws : WorkerRT) : SysState × WorkerRT :=
  match ws.prog with
  | [] => (s, ws)
  | a :: rest =>
      match a with
      | .load =>
          ({ s with cache := s.cache },
           { ws with prog := rest, hit := (cacheFind s.cache cfg.digest).isSome })
      | .commit =>
          if ws.hit then
            ({ s with cache := cacheAppend s.cache cfg.digest (entryFor e) cfg.now },
             { ws with prog := rest, emitted := ws.emitted ++ [false] })
          else
            let stored := cacheStore s.cache cfg.digest
              { lastUpdated := cfg.now, entries := [entryFor e] }
            ({ s with cache := stored },
             { ws with prog := rest, emitted := ws.emitted ++ [true] })
      | .lock =>
          match s.lockBy with
          | none => ({ s with lockBy := some i }, { ws with prog := rest })
          | some _ => (s, ws)
      | .exportAct => (s, { ws with prog := rest })
      | .unlock =>
          if s.lockBy = some i then ({ s with lockBy := none }, { ws with prog := rest })
          else (s, ws)

/-- sysStep runs one action of worker `i`. -/
def sysStep (cfg : SysCfg) (s : SysState) (i : Fin 2) : SysState :=
  if i = 0 then
    let r := wactStep cfg cfg.ex0 i s s.w0
    { r.1 with w0 := r.2 }
  else
    let r := wactStep cfg cfg.ex1 i s s.w1
    { r.1 with w1 := r.2 }

/-- runSched runs a schedule (a list of worker indices) from a state. -/
def runSched (cfg : SysCfg) (s : SysState) : List (Fin 2) → SysState
  | [] => s
  | i :: rest => runSched cfg (sysStep cfg s i) rest

/-- initState starts both workers at the top of the region with the given
shared cache. -/
def initState (c : Cache) : SysState :=
  { cache := c, lockBy := none,
    w0 := { prog := workerProgram, hit := false, emitted := [] },
    w1 := { prog := workerProgram, hit := false, emitted := [] } }

/-- uploadCount is the number of samples emitted with `upload = true` across
both workers. -/
def uploadCount (s : SysState) : Nat :=
  (s.w0.emitted ++ s.w1.emitted).count true

/-- indexOfAct is the position of an action in a program. -/
def indexOfAct (a : WAct) : List WAct → Nat
  | [] => 0
  | b :: rest => if b = a then 0 else indexOfAct a rest + 1

end Conc

namespace Cache

/-- checkStepCache is the cache mutation performed by one iteration of the
`Check` loop for one sample (cache.go lines 142-163), split out so that the
loop can be unfolded one step at a time in proofs. -/
def checkStepCache (e : Extraction) (now : Nat) (c : Cache) (s : Sample) : Cache :=
  let entry : CacheEntry := { sourceId := e.sourceID, sourceHash := e.sourceSHA256 }
  match cacheFind c s.sha256 with
  | some _ => cacheAppend c s.sha256 entry now
  | none => cacheStore c s.sha256 { lastUpdated := now, entries := [entry] }

theorem checkLoop_cons (e : Extraction) (now : Nat) (s : Sample) (ss : List Sample)
    (c : Cache) :
    checkLoop e now (s :: ss) c =
      (({ sha256 := s.sha256, paths := s.paths,
          upload := (cacheFind c s.sha256).isNone } : Sample) ::
        (checkLoop e now ss (checkStepCache e now c s)).1,
       (checkLoop e now ss (checkStepCache e now c s)).2) := by
  simp only [checkLoop, checkStepCache]
  cases cacheFind c s.sha256 <;> rfl

theorem checkLoop_length (e : Extraction) (now : Nat) (ss : List Sample) (c : Cache) :
    (checkLoop e now ss c).1.length = ss.length := by
  induction ss generalizing c with
  | nil => rfl
  | cons s rest ih =>
      rw [checkLoop_cons]
      simp [ih]

theorem checkLoop_append (e : Extraction) (now : Nat) (l₁ l₂ : List Sample) (c : Cache) :
    (checkLoop e now (l₁ ++ l₂) c).2 =
      (checkLoop e now l₂ (checkLoop e now l₁ c).2).2 := by
  induction l₁ generalizing c with
  | nil => rfl
  | cons s rest ih =>
      rw [List.cons_append, checkLoop_cons, checkLoop_cons, ih]

theorem cacheFind_cacheStore_self (c : Cache) (d : String) (v : Entries) :
    cacheFind c d = none → cacheFind (cacheStore c d v) d = some v := by
  induction c with
  | nil => intro _; simp [cacheStore, cacheFind]
  | cons kv rest ih =>
      intro h
      obtain ⟨k, w⟩ := kv
      by_cases hk : k = d
      · simp [cacheFind, hk] at h
      · simpa [cacheStore, cacheFind, hk] using ih (by simpa [cacheFind, hk] using h)

theorem cacheFind_cacheAppend_self (c : Cache) (d : String) (en : CacheEntry) (now : Nat)
    (w : Entries) :
    cacheFind c d = some w →
    cacheFind (cacheAppend c d en now) d =
      some { lastUpdated := now, entries := w.entries ++ [en] } := by
  induction c with
  | nil => intro h; simp [cacheFind] at h
  | cons kv rest ih =>
      intro h
      obtain ⟨k, v⟩ := kv
      by_cases hk : k = d
      · simp [cacheFind, hk] at h
        simp [cacheAppend, cacheFind, hk, h]
      · simp [cacheFind, hk] at h
        simpa [cacheAppend, cacheFind, hk] using ih h

theorem cacheFind_checkStepCache_self (e : Extraction) (now : Nat) (c : Cache)
    (s : Sample) : (cacheFind (checkStepCache e now c s) s.sha256).isSome := by
  unfold checkStepCache
  cases hf : cacheFind c s.sha256 with
  | none =>
      simp only []
      rw [cacheFind_cacheStore_self c s.sha256 _ hf]
      rfl
  | some w =>
      simp only []
      rw [cacheFind_cacheAppend_self c s.sha256 _ now w hf]
      rfl

theorem checkLoop_getElem (e : Extraction) (now : Nat) (ss : List Sample) (c : Cache)
    (i : Nat) (hi : i < ss.length) :
    (checkLoop e now ss c).1[i]? =
      some { sha256 := ss[i].sha256, paths := ss[i].paths,
             upload := (cacheFind ((checkLoop e now (ss.take i) c).2) ss[i].sha256).isNone } := by
  induction ss generalizing c i with
  | nil => exact absurd hi (by simp)
  | cons s rest ih =>
      rw [checkLoop_cons]
      cases i with
      | zero => simp [checkLoop]
      | succ i =>
          have hi' : i < rest.length := Nat.lt_of_succ_lt_succ hi
          have := ih (checkStepCache e now c s) i hi'
          simp only [List.take_succ_cons, List.getElem_cons_succ]
          rw [checkLoop_cons]
          simpa using this

theorem checkLoop_take_succ_present (e : Extraction) (now : Nat) (ss : List Sample)
    (c : Cache) (i : Nat) (hi : i < ss.length) :
    (cacheFind ((checkLoop e now (ss.take (i + 1)) c).2) ss[i].sha256).isSome := by
  have htake : ss.take (i + 1) = ss.take i ++ [ss[i]] := by
    rw [List.take_succ]
    simp [List.getElem?_eq_getElem hi]
  rw [htake, checkLoop_append]
  have hstep : (checkLoop e now [ss[i]] ((checkLoop e now (ss.take i) c).2)).2 =
      checkStepCache e now ((checkLoop e now (ss.take i) c).2) ss[i] := by
    rw [checkLoop_cons]
    rfl
  rw [hstep]
  exact cacheFind_checkStepCache_self e now _ _

/-- manifestPathsFor collects every path the manifest lists for a digest. -/
def manifestPathsFor (samples : List Sample) (d : String) : List String :=
  (samples.filter (fun s => s.sha256 = d)).flatMap (fun s => s.paths)

theorem filter_sha_eq_self (samples : List Sample) (hnd : (samples.map (fun s => s.sha256)).Nodup)
    (i : Nat) (hi : i < samples.length) :
    samples.filter (fun s => s.sha256 = samples[i].sha256) = [samples[i]] := by
  induction samples generalizing i with
  | nil => exact absurd hi (by simp)
  | cons s rest ih =>
      have hnd' : (rest.map (fun s => s.sha256)).Nodup := (List.nodup_cons.mp hnd).2
      have hhead : s.sha256 ∉ rest.map (fun t => t.sha256) := (List.nodup_cons.mp hnd).1
      cases i with
      | zero =>
          simp only [List.getElem_cons_zero]
          rw [List.filter_cons]
          simp only [decide_eq_true_eq, if_pos rfl]
          have : rest.filter (fun t => t.sha256 = s.sha256) = [] := by
            rw [List.filter_eq_nil_iff]
            intro t ht
            simp only [decide_eq_true_eq]
            intro hts
            exact hhead (hts ▸ List.mem_map_of_mem (fun u => u.sha256) ht)
          simp [this]
      | succ i =>
          have hi' : i < rest.length := Nat.lt_of_succ_lt_succ hi
          simp only [List.getElem_cons_succ]
          rw [List.filter_cons]
          have hne : ¬ s.sha256 = rest[i].sha256 := by
            intro hts
            exact hhead (hts ▸ List.mem_map_of_mem (fun u => u.sha256) (rest.getElem_mem hi'))
          simp only [decide_eq_true_eq, if_neg hne]
          exact ih hnd' i hi'

theorem manifestPathsFor_getElem (samples : List Sample)
    (hnd : (samples.map (fun s => s.sha256)).Nodup) (i : Nat) (hi : i < samples.length) :
    manifestPathsFor samples samples[i].sha256 = samples[i].paths := by
  rw [manifestPathsFor, filter_sha_eq_self samples hnd i hi]
  simp

theorem resolveSamples_getElem (e : Extraction) (samples : List Sample) (i : Nat)
    (hi : i < samples.length) (hiR : i < (resolveSamples e samples).length) :
    (resolveSamples e samples)[i] =
      { sha256 := samples[i].sha256,
        paths := samples[i].paths.map (joinPath e.path),
        upload := samples[i].upload } := by
  simp [resolveSamples]

theorem cacheFind_cacheAppend_inv (c : Cache) (k : String) (en : CacheEntry) (now : Nat)
    (d : String) (v : Entries) :
    cacheFind (cacheAppend c k en now) d = some v →
    cacheFind c d = some v ∨
      (d = k ∧ ∃ w, cacheFind c d = some w ∧
        v = { lastUpdated := now, entries := w.entries ++ [en] }) := by
  induction c with
  | nil => intro h; simp [cacheAppend, cacheFind] at h
  | cons kv rest ih =>
      obtain ⟨k₀, w₀⟩ := kv
      intro h
      by_cases hk : k₀ = k
      · subst hk
        simp only [cacheAppend, if_pos rfl] at h
        by_cases hd : k₀ = d
        · subst hd
          simp [cacheFind] at h ⊢
          exact Or.inr h.symm
        · simp only [cacheFind, if_neg hd] at h ⊢
          exact Or.inl h
      · simp only [cacheAppend, if_neg hk] at h
        by_cases hd : k₀ = d
        · subst hd
          simp [cacheFind] at h ⊢
          exact Or.inl h
        · simp only [cacheFind, if_neg hd] at h ⊢
          exact ih h

theorem cacheFind_cacheStore_inv (c : Cache) (k : String) (v₀ : Entries)
    (d : String) (v : Entries) :
    cacheFind (cacheStore c k v₀) d = some v →
    cacheFind c d = some v ∨ (d = k ∧ v = v₀) := by
  induction c with
  | nil =>
      intro h
      simp only [cacheStore, List.nil_append, cacheFind] at h
      by_cases hd : k = d
      · subst hd
        simp at h
        exact Or.inr ⟨rfl, h.symm⟩
      · simp [if_neg hd, cacheFind] at h
  | cons kv rest ih =>
      obtain ⟨k₁, w₁⟩ := kv
      intro h
      by_cases hd : k₁ = d
      · subst hd
        simp only [cacheStore, List.cons_append, cacheFind, if_pos rfl] at h ⊢
        exact Or.inl h
      · simp only [cacheStore, List.cons_append, cacheFind, if_neg hd] at h ⊢
        exact ih h

theorem checkStepCache_entry_inv (e : Extraction) (now : Nat) (c : Cache) (s : Sample)
    (d : String) (v : Entries) (ent : CacheEntry) :
    cacheFind (checkStepCache e now c s) d = some v → ent ∈ v.entries →
    (∃ v₀, cacheFind c d = some v₀ ∧ ent ∈ v₀.entries) ∨
      (ent.sourceId = e.sourceID ∧ ent.sourceHash = e.sourceSHA256 ∧ ent.path = []) := by
  intro hf hmem
  unfold checkStepCache at hf
  cases hc : cacheFind c s.sha256 with
  | some w =>
      rw [hc] at hf
      rcases cacheFind_cacheAppend_inv c s.sha256 _ now d v hf with h | ⟨_, w', hw', hv⟩
      · exact Or.inl ⟨v, h, hmem⟩
      · subst hv
        simp only [List.mem_append, List.mem_singleton] at hmem
        rcases hmem with hmem | hmem
        · exact Or.inl ⟨w', hw', hmem⟩
        · subst hmem
          exact Or.inr ⟨rfl, rfl, rfl⟩
  | none =>
      rw [hc] at hf
      rcases cacheFind_cacheStore_inv c s.sha256 _ d v hf with h | ⟨_, hv⟩
      · exact Or.inl ⟨v, h, hmem⟩
      · subst hv
        simp only [List.mem_singleton] at hmem
        subst hmem
        exact Or.inr ⟨rfl, rfl, rfl⟩

theorem checkLoop_entry_inv (e : Extraction) (now : Nat) (ss : List Sample) (c : Cache)
    (d : String) (v : Entries) (ent : CacheEntry) :
    cacheFind ((checkLoop e now ss c).2) d = some v → ent ∈ v.entries →
    (∃ v₀, cacheFind c d = some v₀ ∧ ent ∈ v₀.entries) ∨
      (ent.sourceId = e.sourceID ∧ ent.sourceHash = e.sourceSHA256 ∧ ent.path = []) := by
  induction ss generalizing c with
  | nil => intro hf hmem; exact Or.inl ⟨v, hf, hmem⟩
  | cons s rest ih =>
      rw [checkLoop_cons]
      intro hf hmem
      rcases ih (checkStepCache e now c s) hf hmem with ⟨v₀, hv₀, hmem₀⟩ | hshape
      · exact checkStepCache_entry_inv e now c s d v₀ ent hv₀ hmem₀
      · exact Or.inr hshape

end Cache

end Hashr

open Hashr Hashr.Cache Hashr.Core Hashr.Conc

/-- c6Env is a file-system environment in which the cache file exists, reading
it fails, and deleting it also fails. -/
def c6Env : LoadEnv :=
  { fileExistsAtPath := true, readResult := none,
    parseResult := fun _ => none, removeOk := false }

/-- C6 counterexample: on a read error, when the deletion of the corrupted
cache file itself fails, `cache.Load` surfaces an error instead of returning
an empty cache with no error, so the claim as stated is false. -/
theorem c6_load_error_counterexample :
    c6Env.readResult = none ∧
      Load c6Env = .error "error while trying to delete the repo cache file" :=
  ⟨rfl, rfl⟩

/-- C6 (amended): on any read or parse error, `cache.Load` deletes the cache
file and returns an empty cache with no error provided the deletion succeeds;
if the deletion itself fails, that deletion error is returned. -/
theorem c6_load_discards_corrupt_file (env : LoadEnv)
    (hex : env.fileExistsAtPath = true)
    (herr : env.readResult = none ∨
            ∃ d, env.readResult = some d ∧ env.parseResult d = none) :
    (env.removeOk = true → Load env = .ok ([], { removedFile := true }))
    ∧ (env.removeOk = false → ∃ msg, Load env = .error msg) := by
  rcases herr with h | ⟨d, hd, hp⟩
  · constructor <;> intro hr <;> simp [Load, hex, h, hr]
  · constructor <;> intro hr <;> simp [Load, hex, hd, hp, hr]

/-- c6EnvW is like `c6Env` but with a deletion that succeeds. -/
def c6EnvW : LoadEnv :=
  { fileExistsAtPath := true, readResult := none,
    parseResult := fun _ => none, removeOk := true }

/-- C6 witness: concrete read-error environment where deletion succeeds and
`Load` returns the empty cache with the file removed. -/
theorem c6_load_discards_corrupt_file_witness :
    Load c6EnvW = .ok ([], { removedFile := true }) :=
  (c6_load_discards_corrupt_file c6EnvW rfl (Or.inl rfl)).1 rfl

/-- C7 counterexample: with previous contents `[1]` and new contents `[2]`,
the intermediate file state after `os.Create` truncates the cache file is the
empty file, which is neither the previous nor the new contents, so `Save` is
not atomic. -/
theorem c7_save_not_atomic_counterexample : ¬ saveAtomic (some [1]) [2] := by
  intro h
  rcases h (some []) (by simp [saveFileStates]) with h1 | h1 <;> simp at h1

/-- C7 (amended): `Save` truncates the cache file in place (`os.Create`) and
then writes the marshalled bytes, so a completed `Save` leaves exactly the
new contents, but between the truncation and the completed write the file is
empty — a crash there leaves a file holding neither the previous nor the new
cache contents (recovered later by `Load` deleting the unparsable file). -/
theorem c7_save_truncates_then_writes (old : Option (List Nat)) (data : List Nat)
    (hold : old ≠ some []) (hdata : data ≠ []) :
    (saveFileStates old data).getLast? = some (some data)
    ∧ some [] ∈ saveFileStates old data
    ∧ ¬ saveAtomic old data := by
  refine ⟨rfl, by simp [saveFileStates], ?_⟩
  intro h
  rcases h (some []) (by simp [saveFileStates]) with h1 | h1
  · exact hold h1.symm
  · simp only [Option.some.injEq] at h1
    exact hdata h1.symm

/-- C7 witness: the amended statement at previous contents `[1]` and new
contents `[2]`. -/
theorem c7_save_truncates_then_writes_witness :
    (saveFileStates (some [1]) [2]).getLast? = some (some [2])
    ∧ some [] ∈ saveFileStates (some [1]) [2]
    ∧ ¬ saveAtomic (some [1]) [2] :=
  c7_save_truncates_then_writes (some [1]) [2] (by decide) (by decide)

/-- C10: when no cache file exists, `cache.Load` returns an empty in-memory
cache and no error, and performs no file removal (its source contains no
file-creation call at all), so a first run is never treated as corruption. -/
theorem c10_load_no_file (env : LoadEnv) (h : env.fileExistsAtPath = false) :
    Load env = .ok ([], { removedFile := false }) := by
  simp [Load, h]

/-- c10Env is an environment with no cache file present. -/
def c10Env : LoadEnv :=
  { fileExistsAtPath := false, readResult := none,
    parseResult := fun _ => none, removeOk := true }

/-- C10 witness: the statement at a concrete environment with no file. -/
theorem c10_load_no_file_witness :
    Load c10Env = .ok ([], { removedFile := false }) :=
  c10_load_no_file c10Env rfl

theorem statusWrites_baseDir_irrel (o : WorkerOutcome) (baseDir : String) :
    statusWrites o baseDir = statusWrites o "" := by
  rcases o with ⟨q, p, h, e, m, x⟩
  cases q <;> cases p <;> cases h <;> cases e <;> cases m <;> cases x <;> rfl

/-- c4AllOk is the outcome in which every stage of the worker succeeds. -/
def c4AllOk : WorkerOutcome :=
  { quickHashOk := true, preprocessOk := true, hashOk := true,
    extractOk := true, manifestOk := true, exportOk := true }

/-- C4 counterexample: on a fully successful source the job record's status
is written as discovered, processed, cached, exported — the `preprocessed`
status is never written to the job store, so the record does not move through
the claimed five-state sequence. -/
theorem c4_no_preprocessed_counterexample :
    statusWrites c4AllOk "/tmp/hashr/x" =
      [Status.discovered, Status.processed, Status.cached, Status.exported]
    ∧ Status.preprocessed ∉ statusWrites c4AllOk "/tmp/hashr/x" := by
  decide

/-- C4 (amended): for every source handled by a worker, the statuses written
to the job store move forward through discovered → processed → cached →
exported (the `preprocessed` constant exists in the source but is never
assigned), or jump to failed from any state; no backwards transitions occur,
no terminal status is followed by another write, the first write is
discovered, and the last written status is terminal. -/
theorem c4_status_monotone (o : WorkerOutcome) (baseDir : String) :
    chainOk statusForward (statusWrites o baseDir) = true
    ∧ (statusWrites o baseDir).dropLast.all (fun s => !(isTerminal s)) = true
    ∧ Status.preprocessed ∉ statusWrites o baseDir
    ∧ (o.quickHashOk = true → (statusWrites o baseDir).head? = some Status.discovered)
    ∧ (o.quickHashOk = true →
        (statusWrites o baseDir).getLast?.map isTerminal = some true) := by
  rw [statusWrites_baseDir_irrel]
  revert o
  decide

/-- C4 witness: the amended statement at the outcome where the export fails,
with every hypothesis discharged. -/
theorem c4_status_monotone_witness :
    chainOk statusForward
      (statusWrites { c4AllOk with exportOk := false } "/tmp/hashr/x") = true
    ∧ (statusWrites { c4AllOk with exportOk := false } "/tmp/hashr/x").dropLast.all
        (fun s => !(isTerminal s)) = true
    ∧ Status.preprocessed ∉ statusWrites { c4AllOk with exportOk := false } "/tmp/hashr/x"
    ∧ (statusWrites { c4AllOk with exportOk := false } "/tmp/hashr/x").head? =
        some Status.discovered
    ∧ (statusWrites { c4AllOk with exportOk := false } "/tmp/hashr/x").getLast?.map
        isTerminal = some true := by
  have h := c4_status_monotone { c4AllOk with exportOk := false } "/tmp/hashr/x"
  exact ⟨h.1, h.2.1, h.2.2.1, h.2.2.2.1 rfl, h.2.2.2.2 rfl⟩

/-- C8: for every worker outcome, once the job record enters a terminal state
(exported or failed) the worker calls `cleanupLocalStorage` on the
extraction's base directory right after the terminal status write (on a
preprocess failure the extraction is still the zero value, so the cleaned
path is the empty string), and `cleanupLocalStorage` attempts no deletion on
any path that does not lie under the engine's temp root `/tmp/hashr`. -/
theorem c8_cleanup_terminal_and_guarded (o : WorkerOutcome) (baseDir : String)
    (hq : o.quickHashOk = true) :
    (∃ s d pre post,
        processingWorkerEvents o baseDir =
          pre ++ [WorkerEvent.storeWrite s, WorkerEvent.cleanupCall d] ++ post
        ∧ isTerminal s = true
        ∧ (d = "" ∨ d = baseDir))
    ∧ (∀ p : String, hasPrefixGo p tmpRoot = false → cleanupLocalStorage p = false) := by
  constructor
  · rcases o with ⟨q, p, h, e, m, x⟩
    cases q with
    | false => cases hq
    | true =>
        cases p with
        | false =>
            exact ⟨.failed, "", [WorkerEvent.storeWrite .discovered], [], rfl, rfl,
              Or.inl rfl⟩
        | true =>
            cases h with
            | false =>
                exact ⟨.failed, baseDir, [WorkerEvent.storeWrite .discovered], [], rfl,
                  rfl, Or.inr rfl⟩
            | true =>
                cases e with
                | false =>
                    exact ⟨.failed, baseDir, [WorkerEvent.storeWrite .discovered], [],
                      rfl, rfl, Or.inr rfl⟩
                | true =>
                    cases m with
                    | false =>
                        exact ⟨.failed, baseDir,
                          [WorkerEvent.storeWrite .discovered,
                           WorkerEvent.storeWrite .processed,
                           WorkerEvent.cacheCheckCall], [], rfl, rfl, Or.inr rfl⟩
                    | true =>
                        cases x with
                        | false =>
                            exact ⟨.failed, baseDir,
                              [WorkerEvent.storeWrite .discovered,
                               WorkerEvent.storeWrite .processed,
                               WorkerEvent.cacheCheckCall,
                               WorkerEvent.storeWrite .cached,
                               WorkerEvent.muLock, WorkerEvent.exportCall],
                              [WorkerEvent.muUnlock], rfl, rfl, Or.inr rfl⟩
                        | true =>
                            exact ⟨.exported, baseDir,
                              [WorkerEvent.storeWrite .discovered,
                               WorkerEvent.storeWrite .processed,
                               WorkerEvent.cacheCheckCall,
                               WorkerEvent.storeWrite .cached,
                               WorkerEvent.muLock, WorkerEvent.exportCall],
                              [WorkerEvent.muUnlock], rfl, rfl, Or.inr rfl⟩
  · intro p hp
    exact hp

/-- C8 witness: the statement at the all-success outcome with a base
directory outside the temp root, with every hypothesis discharged. -/
theorem c8_cleanup_terminal_and_guarded_witness :
    ((∃ s d pre post,
        processingWorkerEvents c4AllOk "/home/user/data" =
          pre ++ [WorkerEvent.storeWrite s, WorkerEvent.cleanupCall d] ++ post
        ∧ isTerminal s = true
        ∧ (d = "" ∨ d = "/home/user/data"))
      ∧ (∀ p : String, hasPrefixGo p tmpRoot = false → cleanupLocalStorage p = false))
    ∧ cleanupLocalStorage "/home/user/data" = false := by
  have h := c8_cleanup_terminal_and_guarded c4AllOk "/home/user/data" rfl
  exact ⟨h, h.2 "/home/user/data" (by decide)⟩

theorem isNewSource_iff (jobs : List (String × String)) (rl : List String) (qh : String) :
    isNewSource jobs rl qh = true ↔
      (lookupJob jobs qh = none ∨ contains rl qh = true ∨
        ∃ st, lookupJob jobs qh = some st ∧ eqFold st reprocessSentinel = true) := by
  unfold isNewSource
  cases hlk : lookupJob jobs qh with
  | none => simp [hlk]
  | some st => simp [hlk, Option.getD]

/-- C5: a discovered source is dispatched by `newSources` if and only if its
quick hash computed successfully and either that quick hash is absent from
the job store, or it matches (case-insensitively) an entry of the
caller-supplied reprocess list, or its stored status equals the `reprocess`
sentinel; every other source — in particular any whose quick hash is present
with a status other than `reprocess` and not on the reprocess list — is not
handed to a worker. -/
theorem c5_dispatch_iff (jobs : List (String × String)) (rl : List String)
    (sources : List DiscoveredSource) (s : DiscoveredSource) :
    s ∈ newSources jobs rl sources ↔
      s ∈ sources ∧ ∃ qh, s.quickHash = some qh ∧
        (lookupJob jobs qh = none ∨ contains rl qh = true ∨
          ∃ st, lookupJob jobs qh = some st ∧ eqFold st reprocessSentinel = true) := by
  induction sources with
  | nil => simp [newSources]
  | cons t rest ih =>
      cases hq : t.quickHash with
      | none =>
          simp only [newSources, hq]
          rw [ih]
          constructor
          · rintro ⟨hmem, hcond⟩
            exact ⟨List.mem_cons_of_mem _ hmem, hcond⟩
          · rintro ⟨hmem, hcond⟩
            rcases List.mem_cons.mp hmem with rfl | hmem
            · obtain ⟨qh, hqh, _⟩ := hcond
              rw [hq] at hqh
              cases hqh
            · exact ⟨hmem, hcond⟩
      | some qh =>
          by_cases hnew : isNewSource jobs rl qh = true
          · simp only [newSources, hq, if_pos hnew]
            rw [List.mem_cons, ih]
            constructor
            · rintro (rfl | ⟨hmem, hcond⟩)
              · exact ⟨List.mem_cons_self _ _, qh, hq, (isNewSource_iff jobs rl qh).mp hnew⟩
              · exact ⟨List.mem_cons_of_mem _ hmem, hcond⟩
            · rintro ⟨hmem, hcond⟩
              rcases List.mem_cons.mp hmem with rfl | hmem
              · exact Or.inl rfl
              · exact Or.inr ⟨hmem, hcond⟩
          · simp only [newSources, hq, if_neg hnew]
            rw [ih]
            constructor
            · rintro ⟨hmem, hcond⟩
              exact ⟨List.mem_cons_of_mem _ hmem, hcond⟩
            · rintro ⟨hmem, hcond⟩
              rcases List.mem_cons.mp hmem with rfl | hmem
              · obtain ⟨qh', hqh', hcond'⟩ := hcond
                rw [hq] at hqh'
                cases hqh'
                exact absurd ((isNewSource_iff jobs rl qh).mpr hcond') hnew
              · exact ⟨hmem, hcond⟩

/-- C2: for every extraction whose hashes.json manifest parses (and lists
each digest once, as the extractor's manifest format does), `cache.Check`
returns one sample per manifest entry, in order; the sample's upload flag is
set exactly when the entry's digest was absent from the cache at the moment
that entry was processed, after which the digest is present in the cache (a
fresh entry was inserted when it was absent, an occurrence appended
otherwise); and the sample carries every path the manifest lists for that
digest, each resolved against the extraction's path directory. -/
theorem c2_check_per_manifest_entry (e : Extraction) (samples : List Sample)
    (now : Nat) (c : Cache)
    (hnd : (samples.map (fun s => s.sha256)).Nodup) :
    ∃ out c', Check e (some samples) now c = .ok (out, c')
      ∧ out.length = samples.length
      ∧ ∀ i (hi : i < samples.length),
          out[i]? = some
            { sha256 := samples[i].sha256,
              paths := (manifestPathsFor samples samples[i].sha256).map (joinPath e.path),
              upload := (cacheFind
                ((checkLoop e now ((resolveSamples e samples).take i) c).2)
                samples[i].sha256).isNone }
          ∧ (cacheFind ((checkLoop e now ((resolveSamples e samples).take (i + 1)) c).2)
              samples[i].sha256).isSome := by
  have hRlen : (resolveSamples e samples).length = samples.length := by
    simp [resolveSamples]
  refine ⟨(checkLoop e now (resolveSamples e samples) c).1,
          (checkLoop e now (resolveSamples e samples) c).2, rfl, ?_, ?_⟩
  · rw [checkLoop_length, hRlen]
  · intro i hi
    have hiR : i < (resolveSamples e samples).length := by rw [hRlen]; exact hi
    have hR := resolveSamples_getElem e samples i hi hiR
    have hsha : (resolveSamples e samples)[i].sha256 = samples[i].sha256 := by
      rw [hR]
    constructor
    · rw [checkLoop_getElem e now (resolveSamples e samples) c i hiR]
      rw [manifestPathsFor_getElem samples hnd i hi]
      rw [hR]
    · have := checkLoop_take_succ_present e now (resolveSamples e samples) c i hiR
      rw [hsha] at this
      exact this

/-- c2Ex is a concrete extraction used to instantiate the cache-check
theorems. -/
def c2Ex : Extraction :=
  { sourceID := "src-2", repoName := "repo", sourceSHA256 := "hash-2",
    baseDir := "/tmp/hashr/b2", path := "/tmp/hashr/b2/export" }

/-- c2Manifest is a concrete two-entry manifest with distinct digests. -/
def c2Manifest : List Sample :=
  [{ sha256 := "aa", paths := ["p"], upload := false },
   { sha256 := "bb", paths := ["q", "r"], upload := false }]

/-- C2 witness: the statement at a concrete extraction, manifest and cache,
with the manifest-parses and distinct-digests hypotheses discharged. -/
theorem c2_check_per_manifest_entry_witness :
    (c2Manifest.map (fun s => s.sha256)).Nodup
    ∧ ∃ out c',
        Check c2Ex (some c2Manifest) 5 [("aa", { lastUpdated := 0, entries := [] })] =
          .ok (out, c')
        ∧ out.length = c2Manifest.length := by
  have h := c2_check_per_manifest_entry c2Ex c2Manifest 5
    [("aa", { lastUpdated := 0, entries := [] })] (by decide)
  obtain ⟨out, c', heq, hlen, _⟩ := h
  exact ⟨by decide, out, c', heq, hlen⟩

/-- c3Ex is a concrete extraction used for the occurrence-shape theorems. -/
def c3Ex : Extraction :=
  { sourceID := "src-3", repoName := "repo", sourceSHA256 := "hash-3",
    baseDir := "/tmp/hashr/b3", path := "/tmp/hashr/b3/export" }

/-- C3 counterexample: running `cache.Check` on a one-entry manifest against
an empty cache stores an occurrence whose path field is empty — it records
the source id and source hash but not the file path of the occurrence
(`/tmp/hashr/b3/export/f`), so the claim as stated is false. -/
theorem c3_occurrence_path_counterexample :
    Check c3Ex (some [{ sha256 := "aa", paths := ["f"], upload := false }]) 0 [] =
      .ok ([{ sha256 := "aa", paths := ["/tmp/hashr/b3/export/f"], upload := true }],
           [("aa", { lastUpdated := 0,
                     entries := [{ sourceId := "src-3", sourceHash := "hash-3",
                                   path := [] }] })])
    ∧ ([] : List String) ≠ ["/tmp/hashr/b3/export/f"] := by
  constructor
  · rfl
  · decide

/-- C3 (amended): every occurrence present in the cache after `cache.Check`
either was already in the cache before the call, or was added by the call and
records exactly the source's id and the source's full SHA-256 digest with an
empty path field (the file paths are carried on the returned samples, not
stored in the cache). -/
theorem c3_occurrences_record_source (e : Extraction) (manifest : List Sample)
    (now : Nat) (c : Cache) (out : List Sample) (c' : Cache) (d : String)
    (v : Entries) (ent : CacheEntry)
    (hok : Check e (some manifest) now c = .ok (out, c'))
    (hfind : cacheFind c' d = some v) (hent : ent ∈ v.entries) :
    (∃ v₀, cacheFind c d = some v₀ ∧ ent ∈ v₀.entries) ∨
      (ent.sourceId = e.sourceID ∧ ent.sourceHash = e.sourceSHA256
        ∧ ent.path = []) := by
  have hc' : c' = (checkLoop e now (resolveSamples e manifest) c).2 := by
    have h2 : (Except.ok (checkLoop e now (resolveSamples e manifest) c) :
        Except String (List Sample × Cache)) = .ok (out, c') := hok
    have h3 := Except.ok.inj h2
    exact (congrArg Prod.snd h3).symm
  rw [hc'] at hfind
  exact checkLoop_entry_inv e now (resolveSamples e manifest) c d v ent hfind hent

/-- C3 witness: the amended statement at the concrete run of the C3
counterexample, with every hypothesis discharged. -/
theorem c3_occurrences_record_source_witness :
    (∃ v₀, cacheFind [] "aa" = some v₀ ∧
        ({ sourceId := "src-3", sourceHash := "hash-3", path := [] } : CacheEntry)
          ∈ v₀.entries) ∨
      (({ sourceId := "src-3", sourceHash := "hash-3", path := [] } : CacheEntry).sourceId
          = c3Ex.sourceID
        ∧ ({ sourceId := "src-3", sourceHash := "hash-3", path := [] } : CacheEntry).sourceHash
          = c3Ex.sourceSHA256
        ∧ ({ sourceId := "src-3", sourceHash := "hash-3", path := [] } : CacheEntry).path
          = []) := by
  exact c3_occurrences_record_source c3Ex
    [{ sha256 := "aa", paths := ["f"], upload := false }] 0 []
    [{ sha256 := "aa", paths := ["/tmp/hashr/b3/export/f"], upload := true }]
    [("aa", { lastUpdated := 0,
              entries := [{ sourceId := "src-3", sourceHash := "hash-3", path := [] }] })]
    "aa"
    { lastUpdated := 0,
      entries := [{ sourceId := "src-3", sourceHash := "hash-3", path := [] }] }
    { sourceId := "src-3", sourceHash := "hash-3", path := [] }
    rfl rfl (by decide)

theorem saveSamplesLoop_spec (destDir : String) (statOk readOk : String → Bool)
    (samples : List Sample)
    (hok : ∀ s ∈ samples, s.upload = true → readOk (firstValidPath statOk s.paths) = true) :
    ∃ copies manifest,
      saveSamplesLoop destDir statOk readOk samples = .ok (copies, manifest)
      ∧ manifest.length = samples.length
      ∧ ∀ i (hi : i < samples.length),
          (samples[i].upload = false →
            manifest[i]? = some { sha256 := samples[i].sha256, paths := [], upload := false })
          ∧ (samples[i].upload = true →
              manifest[i]? = some
                { sha256 := samples[i].sha256,
                  paths := [joinPath (joinPath destDir samples[i].sha256)
                             (basenameGo (firstValidPath statOk samples[i].paths))],
                  upload := true }
              ∧ ({ src := firstValidPath statOk samples[i].paths,
                   dest := joinPath (joinPath destDir samples[i].sha256)
                             (basenameGo (firstValidPath statOk samples[i].paths)) } :
                  CopyOp) ∈ copies) := by
  induction samples with
  | nil =>
      exact ⟨[], [], rfl, rfl, fun i hi => absurd hi (by simp)⟩
  | cons s rest ih =>
      have hokRest : ∀ t ∈ rest, t.upload = true →
          readOk (firstValidPath statOk t.paths) = true :=
        fun t ht => hok t (List.mem_cons_of_mem _ ht)
      obtain ⟨copies, manifest, heq, hlen, hidx⟩ := ih hokRest
      cases hs : s.upload with
      | false =>
          refine ⟨copies,
            { sha256 := s.sha256, paths := [], upload := false } :: manifest, ?_, ?_, ?_⟩
          · simp [saveSamplesLoop, hs, heq]
          · simp [hlen]
          · intro i hi
            cases i with
            | zero =>
                constructor
                · intro _
                  simp
                · intro hu
                  simp only [List.getElem_cons_zero] at hu
                  rw [hs] at hu
                  cases hu
            | succ i =>
                have hi' : i < rest.length := Nat.lt_of_succ_lt_succ hi
                simpa only [List.getElem_cons_succ, List.getElem?_cons_succ] using hidx i hi'
      | true =>
          have hread : readOk (firstValidPath statOk s.paths) = true :=
            hok s (List.mem_cons_self _ _) hs
          refine ⟨{ src := firstValidPath statOk s.paths,
                    dest := joinPath (joinPath destDir s.sha256)
                              (basenameGo (firstValidPath statOk s.paths)) } :: copies,
            { sha256 := s.sha256,
              paths := [joinPath (joinPath destDir s.sha256)
                         (basenameGo (firstValidPath statOk s.paths))],
              upload := true } :: manifest, ?_, ?_, ?_⟩
          · simp only [saveSamplesLoop, hs, Bool.not_true, Bool.false_eq_true, if_neg,
              hread, heq]
            simp
          · simp [hlen]
          · intro i hi
            cases i with
            | zero =>
                constructor
                · intro hu
                  simp only [List.getElem_cons_zero] at hu
                  rw [hs] at hu
                  cases hu
                · intro _
                  exact ⟨by simp, List.mem_cons_self _ _⟩
            | succ i =>
                have hi' : i < rest.length := Nat.lt_of_succ_lt_succ hi
                have hstep := hidx i hi'
                simp only [List.getElem_cons_succ, List.getElem?_cons_succ]
                refine ⟨hstep.1, fun hu => ?_⟩
                obtain ⟨hm, hc⟩ := hstep.2 hu
                exact ⟨hm, List.mem_cons_of_mem _ hc⟩

/-- c9statOk is a file-system environment in which every path exists. -/
def c9statOk : String → Bool := fun _ => true

/-- c9readOk is a file-system environment in which every read succeeds. -/
def c9readOk : String → Bool := fun _ => true

/-- C9 counterexample: for a sample with `upload = false` and path
`/x/f2`, the `samples.json` manifest written by `saveSamples` carries an
empty path list for that sample rather than its paths, so the claim that the
manifest lists every sample with its paths is false as stated. -/
theorem c9_manifest_paths_counterexample :
    saveSamples "/exp" "repo" "sid" "shash" c9statOk c9readOk
        [{ sha256 := "bb", paths := ["/x/f2"], upload := false }] =
      .ok { copies := [],
            manifest := [{ sha256 := "bb", paths := [], upload := false }],
            manifestPath := "/exp/repo___sid___shash/samples.json" }
    ∧ ([] : List String) ≠ ["/x/f2"] := by
  constructor
  · rfl
  · decide

/-- C9 (amended): when export is disabled, for each sample with
`upload = true` the first existing path among the sample's paths is copied to
`exportPath/<repo>___<source_id>___<source_sha256>/<sample_sha256>/<basename>`,
and a `samples.json` manifest is written in that per-source directory listing
every sample (both upload values) with its sha256 and upload flag; an
upload sample's manifest entry carries the destination path of its copy as
its only path, and a non-upload sample's entry carries no paths. -/
theorem c9_save_to_disk_layout (exportPath repo sourceID sourceHash : String)
    (statOk readOk : String → Bool) (samples : List Sample)
    (hok : ∀ s ∈ samples, s.upload = true →
      readOk (firstValidPath statOk s.paths) = true) :
    ∃ out, saveSamples exportPath repo sourceID sourceHash statOk readOk samples = .ok out
      ∧ out.manifestPath =
          joinPath (joinPath exportPath (repo ++ "___" ++ sourceID ++ "___" ++ sourceHash))
            "samples.json"
      ∧ out.manifest.length = samples.length
      ∧ ∀ i (hi : i < samples.length),
          (samples[i].upload = false →
            out.manifest[i]? = some
              { sha256 := samples[i].sha256, paths := [], upload := false })
          ∧ (samples[i].upload = true →
              out.manifest[i]? = some
                { sha256 := samples[i].sha256,
                  paths := [joinPath
                    (joinPath
                      (joinPath exportPath (repo ++ "___" ++ sourceID ++ "___" ++ sourceHash))
                      samples[i].sha256)
                    (basenameGo (firstValidPath statOk samples[i].paths))],
                  upload := true }
              ∧ ({ src := firstValidPath statOk samples[i].paths,
                   dest := joinPath
                     (joinPath
                       (joinPath exportPath (repo ++ "___" ++ sourceID ++ "___" ++ sourceHash))
                       samples[i].sha256)
                     (basenameGo (firstValidPath statOk samples[i].paths)) } :
                  CopyOp) ∈ out.copies) := by
  obtain ⟨copies, manifest, heq, hlen, hidx⟩ :=
    saveSamplesLoop_spec
      (joinPath exportPath (repo ++ "___" ++ sourceID ++ "___" ++ sourceHash))
      statOk readOk samples hok
  refine ⟨{ copies := copies, manifest := manifest,
            manifestPath := joinPath
              (joinPath exportPath (repo ++ "___" ++ sourceID ++ "___" ++ sourceHash))
              "samples.json" }, ?_, rfl, hlen, hidx⟩
  simp only [saveSamples, heq]

/-- C9 witness: the amended statement at a concrete source with one uploaded
and one non-uploaded sample, with the readability hypothesis discharged. -/
theorem c9_save_to_disk_layout_witness :
    ∃ out, saveSamples "/exp" "repo" "sid" "shash" c9statOk c9readOk
        [{ sha256 := "aa", paths := ["/x/f1"], upload := true },
         { sha256 := "bb", paths := ["/x/f2"], upload := false }] = .ok out
      ∧ out.manifestPath =
          joinPath (joinPath "/exp" ("repo" ++ "___" ++ "sid" ++ "___" ++ "shash"))
            "samples.json"
      ∧ out.manifest.length = 2 := by
  obtain ⟨out, heq, hpath, hlen, _⟩ :=
    c9_save_to_disk_layout "/exp" "repo" "sid" "shash" c9statOk c9readOk
      [{ sha256 := "aa", paths := ["/x/f1"], upload := true },
       { sha256 := "bb", paths := ["/x/f2"], upload := false }]
      (fun s _ _ => rfl)
  exact ⟨out, heq, hpath, by simpa using hlen⟩

/-- c1Cfg is a concrete run: two workers of one repository, each handling a
source whose manifest holds one file with the same digest `aa`. -/
def c1Cfg : SysCfg :=
  { digest := "aa",
    ex0 := { sourceID := "s0", repoName := "repo", sourceSHA256 := "h0",
             baseDir := "/tmp/hashr/b0", path := "/tmp/hashr/b0/export" },
    ex1 := { sourceID := "s1", repoName := "repo", sourceSHA256 := "h1",
             baseDir := "/tmp/hashr/b1", path := "/tmp/hashr/b1/export" },
    now := 7 }

/-- c1RacySched interleaves the two workers so that both perform the
`sync.Map` Load of `cache.Check` before either stores. -/
def c1RacySched : List (Fin 2) := [0, 1, 0, 1, 0, 1, 0, 1, 0, 1, 1, 1]

/-- c1SerialSched runs worker 0's whole region before worker 1's. -/
def c1SerialSched : List (Fin 2) := [0, 0, 0, 0, 0, 1, 1, 1, 1, 1]

/-- C1: in `processingWorker` the per-repository mutex `h.mu` is taken only
after `cache.Check` returns — the load and commit actions of the cache check
sit before the lock in the worker's program — and consequently, for a digest
absent from the cache at run start, the racy interleaving in which both
workers load before either stores makes both workers' runs complete with two
samples returned as `upload = true` for that one digest, not one. -/
theorem c1_check_outside_mutex_two_uploads :
    indexOfAct WAct.load workerProgram < indexOfAct WAct.lock workerProgram
    ∧ indexOfAct WAct.commit workerProgram < indexOfAct WAct.lock workerProgram
    ∧ cacheFind [] c1Cfg.digest = none
    ∧ (runSched c1Cfg (initState []) c1RacySched).w0.prog = []
    ∧ (runSched c1Cfg (initState []) c1RacySched).w1.prog = []
    ∧ uploadCount (runSched c1Cfg (initState []) c1RacySched) = 2 := by
  refine ⟨by decide, by decide, rfl, ?_, ?_, ?_⟩ <;> rfl

/-- c1_serialised_one_upload records the behaviour the claim describes under
the locking discipline the spec prescribes: when the two workers' regions do
not interleave, exactly one `upload = true` sample is produced for the shared
digest. -/
theorem c1_serialised_one_upload :
    (runSched c1Cfg (initState []) c1SerialSched).w0.prog = []
    ∧ (runSched c1Cfg (initState []) c1SerialSched).w1.prog = []
    ∧ uploadCount (runSched c1Cfg (initState []) c1SerialSched) = 1 := by
  refine ⟨?_, ?_, ?_⟩ <;> rfl
